import Mathlib

/-!
Verification development for the frog workflow execution engine
(`app/engine.py`, `app/models.py`, `app/vault.py`, `app/registry.py`).

The Python code is shallowly embedded: Python dicts become association
lists preserving insertion order (assignment replaces the value in place
for an existing key and appends otherwise), Python exceptions become
`Except` values, and the JSON-serializable values flowing between nodes
become the inductive type `Val`.  External effects (wall-clock
timestamps from `time.time()`, `os.urandom` request ids, the Fernet
cipher, and the concrete tool implementations that do network I/O) are
passed in as explicit parameters of the embedded functions.
-/

namespace Frog

/-- JSON-like values: the `Any` values stored in tool parameter maps,
node results and log entries. -/
inductive Val where
  | str : String → Val
  | num : Int → Val
  | bool : Bool → Val
  | obj : List (String × Val) → Val
  | arr : List Val → Val

/-- A Python `dict[str, ...]` as an insertion-ordered association list. -/
abbrev Dict (α : Type) : Type := List (String × α)

/-- Membership test `key in d` on a Python dict. -/
def dictHas {α : Type} (d : Dict α) (k : String) : Bool :=
  d.any (fun p => p.1 = k)

/-- `d.get(k)`: the value at `k`, if present. -/
def dictGet {α : Type} (d : Dict α) (k : String) : Option α :=
  (d.find? (fun p => p.1 = k)).map Prod.snd

/-- `d.get(k, default)`. -/
def dictGetD {α : Type} (d : Dict α) (k : String) (dflt : α) : α :=
  (dictGet d k).getD dflt

/-- Python dict assignment `d[k] = v`: replaces the value in place when
the key exists, appends a new entry otherwise. -/
def dictSet {α : Type} (d : Dict α) (k : String) (v : α) : Dict α :=
  if dictHas d k then d.map (fun p => if p.1 = k then (k, v) else p)
  else d ++ [(k, v)]

/-- `app/models.py` `ToolDefinition`. -/
structure ToolDefinition where
  type : String
  parameters : Dict Val := []

/-- `app/models.py` `WorkflowNode`.  `condition` is declared in the
source but never consulted at execution time. -/
structure WorkflowNode where
  id : String
  tool : ToolDefinition
  depends_on : List String := []
  condition : Option String := none

/-- `app/models.py` `Workflow`. -/
structure Workflow where
  id : String
  name : String
  description : Option String := none
  nodes : List WorkflowNode

/-- `Workflow.validate_dag` from `app/models.py`: every `depends_on`
reference must resolve to an existing node id (no cycle detection). -/
def Workflow.validate_dag (w : Workflow) : Bool :=
  w.nodes.all (fun n => n.depends_on.all (fun dep => w.nodes.any (fun m => m.id = dep)))

/-- One entry of `context.execution_log`: a dict (the engine writes
`node_id`/`tool_type`/`status`[/`error`] entries; tool adapters append
their own free-form dicts).  The `timestamp` key, populated from the
wall clock by `time.time()`, is outside the model and omitted. -/
abbrev LogEntry : Type := Dict Val

/-- `app/models.py` `WorkflowContext` (its `variables` field is spelled
`vars` here because `variables` is reserved in Lean). -/
structure WorkflowContext where
  request_id : String
  account_id : Option String := none
  secrets : Dict String := []
  vars : Dict Val := []
  execution_log : List LogEntry := []

/-- A node result: a string-keyed value map returned by a tool. -/
abbrev NodeResult : Type := Dict Val

/-- A tool adapter `(parameters, context) -> result`.  It may mutate the
context in place (the returned context) and may raise (`Except.error`);
mutations performed before the raise persist, as in Python. -/
abbrev ToolAdapter : Type :=
  Dict Val → WorkflowContext → Except String NodeResult × WorkflowContext

/-- `get_tool_adapter` from `app/registry.py`: looks a tool name up in
`TOOL_REGISTRY` (here an explicit parameter) and raises
`ValueError("Unknown tool: ...")` when absent. -/
def get_tool_adapter (registry : Dict ToolAdapter) (tool_name : String) :
    Except String ToolAdapter :=
  match registry.find? (fun p => p.1 = tool_name) with
  | some p => Except.ok p.2
  | none => Except.error ("Unknown tool: " ++ tool_name)

/-! ## Topological sort (`topological_sort` in `app/engine.py`)

The Python function builds `graph = {node.id: node.depends_on for node in
workflow.nodes}`, takes `node_ids = set(graph.keys())`, initializes
`in_degree = {node_id: 0 for node_id in node_ids}` by iterating that
*set* (CPython hash order, implementation defined), and then runs its
queue loop.  The set-iteration order is passed in explicitly as
`setIter`; theorems constrain it to enumerate the node-id set. -/

/-- In-degree table: insertion-ordered dict of `Int` counters (the
buggy loop can drive a counter negative, so values are integers). -/
abbrev InDeg : Type := Dict Int

/-- `graph = {node.id: node.depends_on for node in workflow.nodes}`:
dict-comprehension semantics (a repeated id keeps its first position
with the last value). -/
def buildGraph (nodes : List WorkflowNode) : Dict (List String) :=
  nodes.foldl (fun g n => dictSet g n.id n.depends_on) []

/-- `in_degree[dep] += 1` (a no-op when the key is absent; the source
guards the access with `if dep in in_degree`). -/
def incKey (ind : InDeg) (k : String) : InDeg :=
  ind.map (fun p => if p.1 = k then (p.1, p.2 + 1) else p)

/-- `in_degree[node_id] -= 1`. -/
def decKey (ind : InDeg) (k : String) : InDeg :=
  ind.map (fun p => if p.1 = k then (p.1, p.2 - 1) else p)

/-- `for dep in deps: if dep in in_degree: in_degree[dep] += 1`. -/
def incDeps (ind : InDeg) (deps : List String) : InDeg :=
  deps.foldl (fun ind2 dep => if dictHas ind2 dep then incKey ind2 dep else ind2) ind

/-- The in-degree table after the two initialization loops:
`{node_id: 0 for node_id in node_ids}` (iterated in set order) followed
by `for deps in graph.values(): for dep in deps: ...`.  Note the source
increments `in_degree[dep]`, not `in_degree[node_id]`. -/
def initInDegree (setIter : List String) (graph : Dict (List String)) : InDeg :=
  graph.foldl (fun ind e => incDeps ind e.2)
    (setIter.map (fun k => (k, (0 : Int))))

/-- One entry of the inner loop `for node_id, deps in graph.items():
if current in deps: in_degree[node_id] -= 1; if in_degree[node_id] == 0:
queue.append(node_id)`, acting on the state `(in_degree, queue)`. -/
def updEntry (current : String) (st : InDeg × List String)
    (e : String × List String) : InDeg × List String :=
  if current ∈ e.2 then
    let ind := decKey st.1 e.1
    if dictGet ind e.1 = some 0 then (ind, st.2 ++ [e.1]) else (ind, st.2)
  else st

/-- Number of strictly positive in-degree entries; used only to size the
fuel of `kahnLoop`. -/
def posCount (ind : InDeg) : Nat :=
  (ind.filter (fun p => 0 < p.2)).length

/-- The `while queue:` loop.  Each iteration pops the queue head,
appends it to the result and folds the inner update over the graph.
Fuel bounds the iteration count: every iteration removes one queue
element, and an element is enqueued only when a counter steps from 1 to
0, so `queue.length + posCount in_degree` iterations always drain the
queue (`topological_sort_eq` below characterizes the result exactly,
which shows this fuel suffices on every input). -/
def kahnLoop (graph : Dict (List String)) :
    Nat → InDeg → List String → List String → List String
  | _, _, [], result => result
  | 0, _, _ :: _, result => result
  | fuel + 1, ind, current :: rest, result =>
    let st := graph.foldl (updEntry current) (ind, rest)
    kahnLoop graph fuel st.1 st.2 (result ++ [current])

/-- `topological_sort` from `app/engine.py`.  `setIter` is the
(implementation-defined) iteration order of `set(graph.keys())`; it also
fixes `len(node_ids)` in the final length check.  Raising
`ValueError("Workflow contains cycles")` is `Except.error`. -/
def topological_sort (setIter : List String) (w : Workflow) :
    Except String (List String) :=
  let graph := buildGraph w.nodes
  let in_degree := initInDegree setIter graph
  let queue := (in_degree.filter (fun p => p.2 = 0)).map Prod.fst
  let result := kahnLoop graph (queue.length + posCount in_degree) in_degree queue []
  if result.length = setIter.length then Except.ok result
  else Except.error "Workflow contains cycles"

/-! ## Node execution (`execute_node` in `app/engine.py`) -/

/-- The parameter map handed to the tool: `params = node.tool.parameters
.copy()` followed by `params[f"dep_{dep_id}"] = node_results[dep_id]` for
each dependency (the full prior `NodeResult`, wrapped as an object
value). -/
def buildParams (node : WorkflowNode) (node_results : Dict NodeResult) : Dict Val :=
  node.depends_on.foldl
    (fun ps dep_id => dictSet ps ("dep_" ++ dep_id) (Val.obj (dictGetD node_results dep_id [])))
    node.tool.parameters

/-- The `execution_log` entry appended on tool success (`timestamp`
omitted, see `LogEntry`). -/
def okLog (node_id tool_type : String) : LogEntry :=
  [("node_id", Val.str node_id), ("tool_type", Val.str tool_type),
   ("status", Val.str "success")]

/-- The `execution_log` entry appended on a caught tool exception. -/
def errLog (node_id tool_type e : String) : LogEntry :=
  [("node_id", Val.str node_id), ("tool_type", Val.str tool_type),
   ("status", Val.str "error"), ("error", Val.str e)]

/-- `execute_node` from `app/engine.py`.  The two defensive checks
(missing node, unsatisfied dependency) raise out of the function
(`Except.error`, context untouched).  Everything raised by
`get_tool_adapter` or the adapter itself is caught and turned into
`{"error": str(e), "node_id": node_id}` plus a log entry, returned
normally (`Except.ok`). -/
def execute_node (registry : Dict ToolAdapter) (node_id : String) (w : Workflow)
    (ctx : WorkflowContext) (node_results : Dict NodeResult) :
    Except String NodeResult × WorkflowContext :=
  match w.nodes.find? (fun n => n.id = node_id) with
  | none => (Except.error ("Node " ++ node_id ++ " not found in workflow"), ctx)
  | some node =>
    match node.depends_on.find? (fun dep_id => !dictHas node_results dep_id) with
    | some dep_id =>
      (Except.error ("Dependency " ++ dep_id ++ " not satisfied for node " ++ node_id), ctx)
    | none =>
      let params := buildParams node node_results
      match get_tool_adapter registry node.tool.type with
      | Except.error e =>
        (Except.ok [("error", Val.str e), ("node_id", Val.str node_id)],
         { ctx with execution_log := ctx.execution_log ++ [errLog node_id node.tool.type e] })
      | Except.ok adapter =>
        match adapter params ctx with
        | (Except.ok result, ctx1) =>
          (Except.ok result,
           { ctx1 with execution_log := ctx1.execution_log ++ [okLog node_id node.tool.type] })
        | (Except.error e, ctx1) =>
          (Except.ok [("error", Val.str e), ("node_id", Val.str node_id)],
           { ctx1 with execution_log := ctx1.execution_log ++ [errLog node_id node.tool.type e] })

/-! ## Summary generator (`generate_workflow_summary` in `app/engine.py`) -/

/-- A single ASCII apostrophe, for the summary header
`Workflow '<name>' completed:`. -/
def squote : String := String.singleton (Char.ofNat 39)

/-- Rendering of a stored value inside the `❌ <id>: <error>` line
(Python interpolates `result["error"]` with `str`). -/
def pyStr : Val → String
  | Val.str s => s
  | Val.num n => toString n
  | Val.bool b => if b then "True" else "False"
  | Val.obj _ => "<dict>"
  | Val.arr _ => "<list>"

/-- `sum(1 for r in node_results.values() if "error" not in r)`. -/
def successful_count (node_results : Dict NodeResult) : Nat :=
  (node_results.filter (fun p => !dictHas p.2 "error")).length

/-- The list `summary_parts` accumulated by
`generate_workflow_summary`: header, one line per node in declaration
order (`node_results.get(node.id, {})`, error line when the result has
an `"error"` key, `✅ <id>: Success` otherwise), then the aggregate
`Execution Summary` line. -/
def summaryParts (w : Workflow) (node_results : Dict NodeResult) : List String :=
  ("Workflow " ++ squote ++ w.name ++ squote ++ " completed:")
    :: (w.nodes.map (fun node =>
        let result := dictGetD node_results node.id []
        if dictHas result "error" then
          "❌ " ++ node.id ++ ": " ++ pyStr (dictGetD result "error" (Val.str ""))
        else
          "✅ " ++ node.id ++ ": Success"))
    ++ ["\nExecution Summary: " ++ toString (successful_count node_results) ++ "/"
          ++ toString w.nodes.length ++ " nodes completed successfully"]

/-- `generate_workflow_summary` from `app/engine.py` (its unused
`context` argument included for fidelity). -/
def generate_workflow_summary (w : Workflow) (node_results : Dict NodeResult)
    (_context : WorkflowContext) : String :=
  String.intercalate "\n" (summaryParts w node_results)

/-! ## The event stream (`run_workflow` in `app/engine.py`)

Each yielded JSON line becomes one `Event`; the JSON serialization
itself is not modeled. -/

/-- The typed events `run_workflow` yields. -/
inductive Event where
  | workflow_error (error : String)
  | workflow_start (workflow_id : String) (nodes : Nat) (execution_order : List String)
  | node_start (node_id : String)
  | node_complete (node_id : String) (result : NodeResult)
  | node_error (node_id : String) (error : String)
  | message (content : String) (role : String)
  | workflow_complete (execution_log : List LogEntry)

/-- `true` exactly on `node_complete` events. -/
def Event.isNodeComplete : Event → Bool
  | Event.node_complete _ _ => true
  | _ => false

/-- `true` exactly on `node_start` events. -/
def Event.isNodeStart : Event → Bool
  | Event.node_start _ => true
  | _ => false

/-- `true` exactly on `node_error` events. -/
def Event.isNodeError : Event → Bool
  | Event.node_error _ _ => true
  | _ => false

/-- The `for node_id in execution_order:` loop of `run_workflow`: per
node, yield `node_start`, call `execute_node`, then yield
`node_complete` with the returned result (recording it in
`node_results`) or — when `execute_node` itself raised — yield
`node_error` and record `{"error": str(e)}`.  Returns the yielded
events, the final `node_results` and the final context. -/
def run_nodes (registry : Dict ToolAdapter) (w : Workflow) :
    List String → WorkflowContext → Dict NodeResult →
    List Event × Dict NodeResult × WorkflowContext
  | [], ctx, node_results => ([], node_results, ctx)
  | node_id :: rest, ctx, node_results =>
    match execute_node registry node_id w ctx node_results with
    | (Except.ok result, ctx1) =>
      let out := run_nodes registry w rest ctx1 (dictSet node_results node_id result)
      (Event.node_start node_id :: Event.node_complete node_id result :: out.1,
       out.2.1, out.2.2)
    | (Except.error e, ctx1) =>
      let out := run_nodes registry w rest ctx1
        (dictSet node_results node_id [("error", Val.str e)])
      (Event.node_start node_id :: Event.node_error node_id e :: out.1,
       out.2.1, out.2.2)

/-- `run_workflow` from `app/engine.py`, as the full list of yielded
events plus the final context.  A failed `validate_dag` yields the
single `workflow_error "Invalid workflow DAG"`; a `topological_sort`
exception is caught by the outer handler and yields a single
`workflow_error`; otherwise the stream is `workflow_start`, the node
events, the summary `message`, and `workflow_complete`.  (The unused
`messages` argument of the Python function is omitted.) -/
def run_workflow (registry : Dict ToolAdapter) (setIter : List String)
    (w : Workflow) (ctx : WorkflowContext) : List Event × WorkflowContext :=
  if w.validate_dag = false then
    ([Event.workflow_error "Invalid workflow DAG"], ctx)
  else
    match topological_sort setIter w with
    | Except.error e => ([Event.workflow_error e], ctx)
    | Except.ok execution_order =>
      let out := run_nodes registry w execution_order ctx []
      (Event.workflow_start w.id w.nodes.length execution_order
          :: (out.1
            ++ [Event.message (generate_workflow_summary w out.2.1 out.2.2) "assistant",
                Event.workflow_complete out.2.2.execution_log]),
       out.2.2)

/-! ## Secret injection (`inject_secrets` in `app/vault.py`)

`SECRET_STORE`, `settings` and the Fernet cipher are process-global
state and configuration; they are explicit parameters here.  Decryption
is an abstract partial function: `none` models a
`decrypt_secret` exception, which the source skips with `continue`. -/

/-- The slice of `app/config.py` `Settings` that `inject_secrets`
reads. -/
structure Settings where
  openai_key : Option String := none

/-- `SECRET_STORE: Dict[str, Dict[str, str]]` — per-account encrypted
secrets. -/
abbrev SecretStore : Type := Dict (Dict String)

/-- Python truthiness of an `Optional[str]` (`None` and `""` are
falsy). -/
def optTruthy : Option String → Bool
  | none => false
  | some s => !(s == "")

/-- `inject_secrets` from `app/vault.py`.  The fresh request id
(`os.urandom`) is a parameter; the workflow argument is unused in the
source body. -/
def inject_secrets (stg : Settings) (store : SecretStore)
    (decrypt : String → Option String) (request_id : String)
    (_workflow : Workflow) (account_id : Option String) : WorkflowContext :=
  let context : WorkflowContext :=
    { request_id := request_id, account_id := account_id }
  if optTruthy account_id = false then context
  else
    let secrets0 : Dict String :=
      if optTruthy stg.openai_key then
        dictSet [] "OPENAI_API_KEY" (stg.openai_key.getD "")
      else []
    let aid := account_id.getD ""
    let secrets1 : Dict String :=
      match store.find? (fun p => p.1 = aid) with
      | some entry =>
        entry.2.foldl (fun s kv =>
          match decrypt kv.2 with
          | some v => dictSet s kv.1 v
          | none => s) secrets0
      | none => secrets0
    { context with secrets := secrets1 }

/-- The keys stored for one account in the secret store. -/
def accountKeys (store : SecretStore) (aid : String) : List String :=
  match store.find? (fun p => p.1 = aid) with
  | some entry => entry.2.map Prod.fst
  | none => []

/-- The dependency relation of a workflow: `dependsOn w a b` when the
node with id `a` lists `b` in its `depends_on`. -/
def dependsOn (w : Workflow) (a b : String) : Prop :=
  ∃ n ∈ w.nodes, n.id = a ∧ b ∈ n.depends_on

/-- Total number of references to `k` across all dependency lists of the
graph dict. -/
def refCount (graph : Dict (List String)) (k : String) : Nat :=
  (graph.map (fun e => e.2.count k)).sum

/-! ## Dictionary lemmas -/

lemma dictHas_iff {α : Type} (d : Dict α) (k : String) :
    dictHas d k = true ↔ ∃ p ∈ d, p.1 = k := by
  simp [dictHas]

lemma dictSet_of_fresh {α : Type} (d : Dict α) (k : String) (v : α)
    (h : dictHas d k = false) : dictSet d k v = d ++ [(k, v)] := by
  simp [dictSet, h]

lemma dictHas_append {α : Type} (d1 d2 : Dict α) (k : String) :
    dictHas (d1 ++ d2) k = (dictHas d1 k || dictHas d2 k) := by
  simp [dictHas, List.any_append]

/-! ## What `topological_sort` actually computes

The source increments `in_degree[dep]` for every dependency occurrence
(instead of `in_degree[node_id]`), so `in_degree[k]` ends up as the
number of nodes that depend on `k` (`refCount`).  Consequently the seed
queue holds exactly the nodes nobody depends on — and since such a node
never occurs in a `deps` list, the relaxation loop never fires and never
enqueues anything.  The result is therefore exactly the seed queue. -/

lemma incKey_map (setIter : List String) (f : String → Int) (dep : String) :
    incKey (setIter.map (fun k => (k, f k))) dep
      = setIter.map (fun k => (k, if k = dep then f k + 1 else f k)) := by
  simp only [incKey, List.map_map]
  congr 1
  funext k
  by_cases h : k = dep <;> simp [h]

lemma dictHas_map_iff (setIter : List String) (f : String → Int) (dep : String) :
    dictHas (setIter.map (fun k => (k, f k))) dep = true ↔ dep ∈ setIter := by
  simp [dictHas]

lemma incDeps_map (deps : List String) (setIter : List String) (f : String → Int) :
    incDeps (setIter.map (fun k => (k, f k))) deps
      = setIter.map (fun k => (k, f k + (deps.count k : Int))) := by
  induction deps generalizing f with
  | nil =>
    simp only [incDeps, List.foldl_nil, List.count_nil]
    exact (List.map_congr_left (fun k _ => by simp)).symm
  | cons d rest ih =>
    show incDeps (if dictHas (setIter.map (fun k => (k, f k))) d then _ else _) rest = _
    by_cases hmem : d ∈ setIter
    · rw [if_pos ((dictHas_map_iff setIter f d).mpr hmem), incKey_map]
      rw [ih (fun k => if k = d then f k + 1 else f k)]
      refine List.map_congr_left (fun k _ => ?_)
      by_cases hk : k = d
      · subst hk
        simp [List.count_cons]
        ring
      · have : (k == d) = false := by simp [hk]
        simp [hk, List.count_cons, this]
    · have : dictHas (setIter.map (fun k => (k, f k))) d = false := by
        rw [Bool.eq_false_iff]
        intro hc
        exact hmem ((dictHas_map_iff setIter f d).mp hc)
      rw [if_neg (by simp [this])]
      rw [ih f]
      refine List.map_congr_left (fun k hk => ?_)
      have hkd : k ≠ d := fun h => hmem (h ▸ hk)
      have : (k == d) = false := by simp [hkd]
      simp [List.count_cons, this, Ne.symm hkd]

lemma initInDegree_go (graph : Dict (List String)) (setIter : List String)
    (f : String → Int) :
    graph.foldl (fun ind e => incDeps ind e.2) (setIter.map (fun k => (k, f k)))
      = setIter.map (fun k => (k, f k + (refCount graph k : Int))) := by
  induction graph generalizing f with
  | nil =>
    simp only [List.foldl_nil, refCount, List.map_nil, List.sum_nil]
    exact (List.map_congr_left (fun k _ => by simp)).symm
  | cons e rest ih =>
    simp only [List.foldl_cons]
    rw [incDeps_map e.2 setIter f, ih (fun k => f k + (e.2.count k : Int))]
    refine List.map_congr_left (fun k _ => ?_)
    simp [refCount, List.map_cons, List.sum_cons]
    ring

lemma initInDegree_eq (setIter : List String) (graph : Dict (List String)) :
    initInDegree setIter graph
      = setIter.map (fun k => (k, (refCount graph k : Int))) := by
  unfold initInDegree
  rw [initInDegree_go graph setIter (fun _ => 0)]
  exact List.map_congr_left (fun k _ => by simp)

lemma seed_queue_eq (setIter : List String) (graph : Dict (List String)) :
    ((initInDegree setIter graph).filter (fun p => p.2 = 0)).map Prod.fst
      = setIter.filter (fun k => refCount graph k = 0) := by
  rw [initInDegree_eq]
  induction setIter with
  | nil => simp
  | cons k rest ih =>
    by_cases h : refCount graph k = 0
    · simp [List.filter_cons, h, ih]
    · have h2 : ¬ ((refCount graph k : Int) = 0) := by exact_mod_cast h
      simp [List.filter_cons, h, h2, ih]

lemma updEntry_of_not_mem (current : String) (st : InDeg × List String)
    (e : String × List String) (h : current ∉ e.2) :
    updEntry current st e = st := by
  simp [updEntry, h]

lemma foldl_updEntry_id (graph : Dict (List String)) (current : String)
    (st : InDeg × List String) (h : ∀ e ∈ graph, current ∉ e.2) :
    graph.foldl (updEntry current) st = st := by
  induction graph generalizing st with
  | nil => rfl
  | cons e rest ih =>
    rw [List.foldl_cons, updEntry_of_not_mem current st e (h e (by simp))]
    exact ih st (fun e2 he2 => h e2 (by simp [he2]))

lemma kahnLoop_unreferenced (graph : Dict (List String)) (q : List String) :
    ∀ (fuel : Nat) (ind : InDeg) (r : List String), q.length ≤ fuel →
    (∀ k ∈ q, ∀ e ∈ graph, k ∉ e.2) →
    kahnLoop graph fuel ind q r = r ++ q := by
  induction q with
  | nil => intro fuel ind r _ _; cases fuel <;> simp [kahnLoop]
  | cons c rest ih =>
    intro fuel ind r hfuel hq
    match fuel with
    | 0 => exact absurd hfuel (by simp)
    | fuel + 1 =>
      show kahnLoop graph fuel _ _ _ = _
      rw [foldl_updEntry_id graph c (ind, rest) (hq c (by simp))]
      rw [ih fuel ind (r ++ [c]) (by simpa using Nat.le_of_succ_le_succ hfuel)
        (fun k hk => hq k (by simp [hk]))]
      simp

lemma refCount_eq_zero_iff (graph : Dict (List String)) (k : String) :
    refCount graph k = 0 ↔ ∀ e ∈ graph, k ∉ e.2 := by
  unfold refCount
  rw [List.sum_eq_zero_iff]
  constructor
  · intro h e he
    exact List.count_eq_zero.mp (h (e.2.count k) (List.mem_map_of_mem _ he))
  · intro h x hx
    obtain ⟨e, he, rfl⟩ := List.mem_map.mp hx
    exact List.count_eq_zero.mpr (h e he)

/-- Exact characterization of `topological_sort`: because the in-degree
table counts dependents rather than dependencies, the loop never
enqueues anything, the produced order is exactly the nodes that no node
depends on (in set-iteration order), and the cycle error fires whenever
any node is depended on. -/
theorem topological_sort_eq (setIter : List String) (w : Workflow) :
    topological_sort setIter w =
      (if ((setIter.filter
              (fun k => refCount (buildGraph w.nodes) k = 0)).length = setIter.length)
       then Except.ok (setIter.filter (fun k => refCount (buildGraph w.nodes) k = 0))
       else Except.error "Workflow contains cycles") := by
  have hq : ∀ k ∈ setIter.filter (fun k => refCount (buildGraph w.nodes) k = 0),
      ∀ e ∈ buildGraph w.nodes, k ∉ e.2 := by
    intro k hk e he
    have hz : refCount (buildGraph w.nodes) k = 0 := by
      have := List.of_mem_filter hk
      simpa using this
    exact (refCount_eq_zero_iff _ k).mp hz e he
  unfold topological_sort
  simp only [seed_queue_eq]
  rw [kahnLoop_unreferenced _ _ _ _ _ (Nat.le_add_right _ _) hq]
  simp

lemma buildGraph_go (nodes : List WorkflowNode) :
    ∀ acc : Dict (List String),
    (∀ n ∈ nodes, dictHas acc n.id = false) →
    (nodes.map WorkflowNode.id).Nodup →
    nodes.foldl (fun g n => dictSet g n.id n.depends_on) acc
      = acc ++ nodes.map (fun n => (n.id, n.depends_on)) := by
  induction nodes with
  | nil => intro acc _ _; simp
  | cons n0 rest ih =>
    intro acc hacc hnd
    rw [List.foldl_cons, dictSet_of_fresh _ _ _ (hacc n0 (by simp))]
    have hnd2 := by simpa using hnd
    rw [ih (acc ++ [(n0.id, n0.depends_on)]) ?_ hnd2.2]
    · simp
    · intro n hn
      have h1 : dictHas acc n.id = false := hacc n (by simp [hn])
      have h2 : ¬ (n0.id = n.id) := fun h => hnd2.1 n hn h.symm
      rw [dictHas_append, h1]
      simp [dictHas, h2]

/-- With unique node ids (the data-model invariant), the graph dict is
just the declaration-ordered list of `(id, depends_on)` pairs. -/
lemma buildGraph_eq (nodes : List WorkflowNode)
    (hN : (nodes.map WorkflowNode.id).Nodup) :
    buildGraph nodes = nodes.map (fun n => (n.id, n.depends_on)) := by
  simpa [buildGraph] using buildGraph_go nodes [] (fun n _ => rfl) hN

/-! ## Concrete workflows used as inputs -/

/-- The acyclic fork `{A: no deps, B: depends_on [A], C: depends_on [A]}`
named by the spec scenario. -/
def wfFork : Workflow :=
  { id := "wf_fork", name := "fork",
    nodes :=
      [ { id := "A", tool := { type := "tool.a" } },
        { id := "B", tool := { type := "tool.b" }, depends_on := ["A"] },
        { id := "C", tool := { type := "tool.c" }, depends_on := ["A"] } ] }

/-- The two-node cycle `{A: depends_on [B], B: depends_on [A]}`. -/
def wfCyc : Workflow :=
  { id := "wf_cyc", name := "cyc",
    nodes :=
      [ { id := "A", tool := { type := "tool.a" }, depends_on := ["B"] },
        { id := "B", tool := { type := "tool.b" }, depends_on := ["A"] } ] }

/-- Two independent nodes declared in the order `b`, `a`. -/
def wfTwo : Workflow :=
  { id := "wf_two", name := "two",
    nodes :=
      [ { id := "b", tool := { type := "tool.b" } },
        { id := "a", tool := { type := "tool.a" } } ] }

/-- A single node whose tool type is not registered. -/
def wfOne : Workflow :=
  { id := "wf_one", name := "one",
    nodes := [ { id := "A", tool := { type := "missing" } } ] }

/-- An empty starting context. -/
def ctx0 : WorkflowContext := { request_id := "req_0" }

/-! ## Claims C1-C3 -/

/-- **C1** (code bug).  The claim: for every acyclic workflow with N nodes
`topological_sort` returns an order of length N in which dependencies
precede dependents — in particular `[A, B, C]` or `[A, C, B]` on the
fork workflow.  The code instead raises
`ValueError("Workflow contains cycles")` on this acyclic, valid
workflow, for every possible iteration order of `set(graph.keys())`:
the initialization increments `in_degree[dep]` instead of
`in_degree[node_id]`, so dependency edges are never relaxed. -/
theorem kahn_rejects_acyclic_fork (setIter : List String)
    (hperm : setIter.Perm (wfFork.nodes.map WorkflowNode.id)) :
    wfFork.validate_dag = true ∧
    (¬ ∃ a, Relation.TransGen (dependsOn wfFork) a a) ∧
    topological_sort setIter wfFork = Except.error "Workflow contains cycles" := by
  refine ⟨rfl, ?_, ?_⟩
  · rintro ⟨a, hT⟩
    have hstep : ∀ x y, dependsOn wfFork x y → y = "A" ∧ (x = "B" ∨ x = "C") := by
      rintro x y ⟨n, hn, rfl, hdep⟩
      simp only [wfFork, List.mem_cons, List.not_mem_nil, or_false] at hn
      rcases hn with rfl | rfl | rfl <;> simp_all
    obtain ⟨b, hab, hba⟩ := Relation.TransGen.head'_iff.mp hT
    obtain ⟨hbA, hx⟩ := hstep a b hab
    subst hbA
    rcases Relation.ReflTransGen.cases_head hba with hAa | ⟨c, hAc, _⟩
    · rcases hx with rfl | rfl <;> exact absurd hAa (by decide)
    · rcases (hstep _ _ hAc).2 with h | h <;> exact absurd h (by decide)
  · rw [topological_sort_eq]
    have hlen : setIter.length = 3 := by
      rw [hperm.length_eq]; rfl
    have hfl : (setIter.filter
        (fun k => refCount (buildGraph wfFork.nodes) k = 0)).length = 2 := by
      rw [(hperm.filter
        (fun k => decide (refCount (buildGraph wfFork.nodes) k = 0))).length_eq]
      rfl
    rw [hfl, hlen]
    norm_num

/-- Witness for `kahn_rejects_acyclic_fork` at the concrete set order
`["A", "B", "C"]`. -/
theorem kahn_rejects_acyclic_fork_witness :
    List.Perm ["A", "B", "C"] (wfFork.nodes.map WorkflowNode.id) ∧
    topological_sort ["A", "B", "C"] wfFork = Except.error "Workflow contains cycles" :=
  ⟨List.Perm.refl _, (kahn_rejects_acyclic_fork ["A", "B", "C"] (List.Perm.refl _)).2.2⟩

/-- **C2** (confirmed).  Every workflow with a dependency cycle (every
cycle node is both an existing node id and referenced by another node)
makes `topological_sort` raise the cycle `ValueError`, and the event
stream of the run is exactly one terminal `workflow_error` — zero
`node_start`, `node_complete` or `node_error` events. -/
theorem cycle_yields_single_workflow_error (registry : Dict ToolAdapter)
    (setIter : List String) (w : Workflow) (ctx : WorkflowContext)
    (hN : (w.nodes.map WorkflowNode.id).Nodup)
    (hperm : setIter.Perm (w.nodes.map WorkflowNode.id))
    (hcyc : ∃ a, Relation.TransGen (dependsOn w) a a) :
    topological_sort setIter w = Except.error "Workflow contains cycles" ∧
    (∃ msg, (run_workflow registry setIter w ctx).1 = [Event.workflow_error msg]) ∧
    ((run_workflow registry setIter w ctx).1.filter Event.isNodeStart = []) ∧
    ((run_workflow registry setIter w ctx).1.filter Event.isNodeComplete = []) ∧
    ((run_workflow registry setIter w ctx).1.filter Event.isNodeError = []) := by
  obtain ⟨a, hT⟩ := hcyc
  obtain ⟨x, _, nx, hnx, hnxid, hanx⟩ := Relation.TransGen.tail'_iff.mp hT
  obtain ⟨b, ⟨m, hm, hmid, _⟩, _⟩ := Relation.TransGen.head'_iff.mp hT
  have ha_set : a ∈ setIter := by
    rw [hperm.mem_iff]
    exact hmid ▸ List.mem_map_of_mem WorkflowNode.id hm
  have hrc : refCount (buildGraph w.nodes) a ≠ 0 := by
    intro h0
    rw [buildGraph_eq w.nodes hN] at h0
    exact (refCount_eq_zero_iff _ a).mp h0 (nx.id, nx.depends_on)
      (List.mem_map_of_mem _ hnx) hanx
  have hlt : (setIter.filter
      (fun k => refCount (buildGraph w.nodes) k = 0)).length < setIter.length :=
    List.length_filter_lt_length_iff_exists.mpr ⟨a, ha_set, by simpa using hrc⟩
  have hsort : topological_sort setIter w = Except.error "Workflow contains cycles" := by
    rw [topological_sort_eq, if_neg (Nat.ne_of_lt hlt)]
  have hrun : ∃ msg, (run_workflow registry setIter w ctx).1 = [Event.workflow_error msg] := by
    by_cases hval : w.validate_dag = false
    · exact ⟨"Invalid workflow DAG", by simp [run_workflow, hval]⟩
    · exact ⟨"Workflow contains cycles", by simp [run_workflow, hval, hsort]⟩
  obtain ⟨msg, hmsg⟩ := hrun
  exact ⟨hsort, ⟨msg, hmsg⟩,
    by simp [hmsg, Event.isNodeStart],
    by simp [hmsg, Event.isNodeComplete],
    by simp [hmsg, Event.isNodeError]⟩

/-- Witness for `cycle_yields_single_workflow_error` on the concrete
cycle `{A: depends_on [B], B: depends_on [A]}`. -/
theorem cycle_yields_single_workflow_error_witness :
    (wfCyc.nodes.map WorkflowNode.id).Nodup ∧
    (∃ a, Relation.TransGen (dependsOn wfCyc) a a) ∧
    topological_sort ["A", "B"] wfCyc = Except.error "Workflow contains cycles" ∧
    (∃ msg, (run_workflow [] ["A", "B"] wfCyc ctx0).1 = [Event.workflow_error msg]) := by
  have hcyc : ∃ a, Relation.TransGen (dependsOn wfCyc) a a := by
    have hAB : dependsOn wfCyc "A" "B" :=
      ⟨{ id := "A", tool := { type := "tool.a" }, depends_on := ["B"] },
        by simp [wfCyc], rfl, by simp⟩
    have hBA : dependsOn wfCyc "B" "A" :=
      ⟨{ id := "B", tool := { type := "tool.b" }, depends_on := ["A"] },
        by simp [wfCyc], rfl, by simp⟩
    exact ⟨"A", Relation.TransGen.head hAB (Relation.TransGen.single hBA)⟩
  have h := cycle_yields_single_workflow_error [] ["A", "B"] wfCyc ctx0
    (by decide) (List.Perm.refl _) hcyc
  exact ⟨by decide, hcyc, h.1, h.2.1⟩

/-- **C3** (code bug).  The claim: the ready queue is seeded with the
zero-in-degree nodes in declaration order, making the computed order a
deterministic function of the workflow.  In the code the seed order is
the iteration order of `set(graph.keys())`: for the workflow declaring
`b` before `a` (no dependencies), both `["a", "b"]` and `["b", "a"]`
enumerate that set, yet they produce different results — and under the
first the result is not in declaration order. -/
theorem ready_queue_uses_set_iteration_order :
    wfTwo.nodes.map WorkflowNode.id = ["b", "a"] ∧
    List.Perm ["a", "b"] (wfTwo.nodes.map WorkflowNode.id) ∧
    List.Perm ["b", "a"] (wfTwo.nodes.map WorkflowNode.id) ∧
    topological_sort ["a", "b"] wfTwo = Except.ok ["a", "b"] ∧
    topological_sort ["b", "a"] wfTwo = Except.ok ["b", "a"] :=
  ⟨rfl, by decide, by decide, rfl, rfl⟩

/-! ## Node executor lemmas and claims C4, C6, C7, C8 -/

/-- Shared fact: when the node resolves, its dependencies are recorded,
and the tool step raises (unknown tool, or the adapter itself raised
leaving the context at `ctx1`), `execute_node` returns normally with the
error-tagged result and appends exactly one error log entry. -/
lemma execute_node_tool_error (registry : Dict ToolAdapter) (w : Workflow)
    (n : WorkflowNode) (ctx ctx1 : WorkflowContext) (results : Dict NodeResult)
    (e : String)
    (hfind : w.nodes.find? (fun m => m.id = n.id) = some n)
    (hdeps : n.depends_on.find? (fun d => !dictHas results d) = none)
    (hfail : (get_tool_adapter registry n.tool.type = Except.error e ∧ ctx1 = ctx)
      ∨ (∃ a, get_tool_adapter registry n.tool.type = Except.ok a ∧
           a (buildParams n results) ctx = (Except.error e, ctx1))) :
    execute_node registry n.id w ctx results =
      (Except.ok [("error", Val.str e), ("node_id", Val.str n.id)],
       { ctx1 with execution_log :=
          ctx1.execution_log ++ [errLog n.id n.tool.type e] }) := by
  unfold execute_node
  rcases hfail with ⟨hga, rfl⟩ | ⟨a, hga, hcall⟩
  · simp [hfind, hdeps, hga]
  · simp [hfind, hdeps, hga, hcall]

/-- **C6** (confirmed).  A node whose tool invocation raises — including
an unknown/unregistered tool type — yields a `NodeResult` carrying an
`"error"` field plus the node id, appends one log entry, and the
exception does not propagate (`execute_node` returns `Except.ok`). -/
theorem tool_exception_contained (registry : Dict ToolAdapter) (w : Workflow)
    (n : WorkflowNode) (ctx ctx1 : WorkflowContext) (results : Dict NodeResult)
    (e : String)
    (hfind : w.nodes.find? (fun m => m.id = n.id) = some n)
    (hdeps : n.depends_on.find? (fun d => !dictHas results d) = none)
    (hfail : (get_tool_adapter registry n.tool.type = Except.error e ∧ ctx1 = ctx)
      ∨ (∃ a, get_tool_adapter registry n.tool.type = Except.ok a ∧
           a (buildParams n results) ctx = (Except.error e, ctx1))) :
    execute_node registry n.id w ctx results =
      (Except.ok [("error", Val.str e), ("node_id", Val.str n.id)],
       { ctx1 with execution_log :=
          ctx1.execution_log ++ [errLog n.id n.tool.type e] }) :=
  execute_node_tool_error registry w n ctx ctx1 results e hfind hdeps hfail

/-- Witness for `tool_exception_contained`: the single node of `wfOne`
references the unregistered tool `"missing"`. -/
theorem tool_exception_contained_witness :
    wfOne.nodes.find?
        (fun m => m.id = "A") = some { id := "A", tool := { type := "missing" } } ∧
    execute_node [] "A" wfOne ctx0 [] =
      (Except.ok [("error", Val.str "Unknown tool: missing"), ("node_id", Val.str "A")],
       { ctx0 with execution_log :=
          ctx0.execution_log ++ [errLog "A" "missing" "Unknown tool: missing"] }) :=
  ⟨rfl, tool_exception_contained [] wfOne { id := "A", tool := { type := "missing" } }
    ctx0 ctx0 [] "Unknown tool: missing" rfl rfl (Or.inl ⟨rfl, rfl⟩)⟩

/-- **C4** counterexample.  In the one-node run whose tool lookup raises
(`"Unknown tool: missing"`), the stream contains **no** `node_error`
event; the event following `node_start` is `node_complete` carrying the
error-tagged result — the claim says a node whose tool raised produces
`node_error {node_id, error}`. -/
theorem failed_tool_gets_node_complete_counterexample :
    ((run_workflow [] ["A"] wfOne ctx0).1.filter Event.isNodeError = []) ∧
    ((run_workflow [] ["A"] wfOne ctx0).1[2]? =
      some (Event.node_complete "A"
        [("error", Val.str "Unknown tool: missing"), ("node_id", Val.str "A")])) ∧
    get_tool_adapter [] "missing" = Except.error "Unknown tool: missing" :=
  ⟨rfl, rfl, rfl⟩

/-- **C4** as amended: immediately after each node executes the stream
emits `node_complete {node_id, result}` whenever `execute_node` returns
— including every tool failure, where the result is the error-tagged
`{"error": ..., "node_id": ...}` map; `node_error` is reserved for
`execute_node` itself raising (missing node / unsatisfied dependency). -/
theorem failed_tool_emits_error_tagged_node_complete (registry : Dict ToolAdapter)
    (w : Workflow) (n : WorkflowNode) (ctx ctx1 : WorkflowContext)
    (results : Dict NodeResult) (rest : List String) (e : String)
    (hfind : w.nodes.find? (fun m => m.id = n.id) = some n)
    (hdeps : n.depends_on.find? (fun d => !dictHas results d) = none)
    (hfail : (get_tool_adapter registry n.tool.type = Except.error e ∧ ctx1 = ctx)
      ∨ (∃ a, get_tool_adapter registry n.tool.type = Except.ok a ∧
           a (buildParams n results) ctx = (Except.error e, ctx1))) :
    ∃ tl, (run_nodes registry w (n.id :: rest) ctx results).1 =
      Event.node_start n.id ::
      Event.node_complete n.id
        [("error", Val.str e), ("node_id", Val.str n.id)] :: tl := by
  have hex := execute_node_tool_error registry w n ctx ctx1 results e hfind hdeps hfail
  refine ⟨(run_nodes registry w rest
      { ctx1 with execution_log := ctx1.execution_log ++ [errLog n.id n.tool.type e] }
      (dictSet results n.id
        [("error", Val.str e), ("node_id", Val.str n.id)])).1, ?_⟩
  show (match execute_node registry n.id w ctx results with
    | (Except.ok result, c1) =>
      let out := run_nodes registry w rest c1 (dictSet results n.id result)
      (Event.node_start n.id :: Event.node_complete n.id result :: out.1,
       out.2.1, out.2.2)
    | (Except.error e2, c1) =>
      let out := run_nodes registry w rest c1
        (dictSet results n.id [("error", Val.str e2)])
      (Event.node_start n.id :: Event.node_error n.id e2 :: out.1,
       out.2.1, out.2.2)).1 = _
  rw [hex]

/-- Witness for `failed_tool_emits_error_tagged_node_complete` on
`wfOne`. -/
theorem failed_tool_emits_error_tagged_node_complete_witness :
    ∃ tl, (run_nodes [] wfOne ["A"] ctx0 []).1 =
      Event.node_start "A" ::
      Event.node_complete "A"
        [("error", Val.str "Unknown tool: missing"), ("node_id", Val.str "A")] :: tl :=
  failed_tool_emits_error_tagged_node_complete [] wfOne
    { id := "A", tool := { type := "missing" } } ctx0 ctx0 [] [] "Unknown tool: missing"
    rfl rfl (Or.inl ⟨rfl, rfl⟩)

/-- Keys of the form `dep_<id>` determine the id. -/
lemma dep_key_inj {a b : String} (h : "dep_" ++ a = "dep_" ++ b) : a = b := by
  have hd := congrArg String.data h
  rw [String.data_append, String.data_append] at hd
  exact String.ext (List.append_cancel_left hd)

lemma buildParams_fresh_go (results : Dict NodeResult) :
    ∀ (ds : List String) (acc : Dict Val), ds.Nodup →
    (∀ d ∈ ds, dictHas acc ("dep_" ++ d) = false) →
    ds.foldl (fun ps dep_id =>
        dictSet ps ("dep_" ++ dep_id) (Val.obj (dictGetD results dep_id []))) acc
      = acc ++ ds.map (fun d => ("dep_" ++ d, Val.obj (dictGetD results d []))) := by
  intro ds
  induction ds with
  | nil => intro acc _ _; simp
  | cons d0 rest ih =>
    intro acc hnd hacc
    rw [List.foldl_cons, dictSet_of_fresh _ _ _ (hacc d0 (by simp))]
    have hnd2 := List.nodup_cons.mp hnd
    rw [ih (acc ++ [("dep_" ++ d0, Val.obj (dictGetD results d0 []))]) hnd2.2 ?_]
    · simp
    · intro d hd
      have h1 : dictHas acc ("dep_" ++ d) = false := hacc d (by simp [hd])
      have h2 : ¬ ("dep_" ++ d0 = "dep_" ++ d) := fun h =>
        hnd2.1 (by rw [dep_key_inj h]; exact hd)
      rw [dictHas_append, h1]
      simp [dictHas, h2]

/-- **C7** (confirmed).  With all dependency results recorded, the
parameter map handed to the tool is the node's own declared parameters
plus one entry `dep_<d>` per dependency, valued with `d`'s full prior
`NodeResult`; and `execute_node` returns normally (never raises) in that
situation — in particular when a dependency's recorded result is the
error-tagged map of a failed node. -/
theorem dependency_results_passed_to_tool (registry : Dict ToolAdapter)
    (w : Workflow) (ctx : WorkflowContext) (n : WorkflowNode)
    (results : Dict NodeResult)
    (hfind : w.nodes.find? (fun m => m.id = n.id) = some n)
    (hnd : n.depends_on.Nodup)
    (hfresh : ∀ d ∈ n.depends_on, dictHas n.tool.parameters ("dep_" ++ d) = false)
    (hdeps : ∀ d ∈ n.depends_on, dictHas results d = true) :
    buildParams n results
      = n.tool.parameters
        ++ n.depends_on.map (fun d => ("dep_" ++ d, Val.obj (dictGetD results d []))) ∧
    ∃ r ctx1, execute_node registry n.id w ctx results = (Except.ok r, ctx1) := by
  constructor
  · exact buildParams_fresh_go results n.depends_on n.tool.parameters hnd hfresh
  · have hfd : n.depends_on.find? (fun d => !dictHas results d) = none :=
      List.find?_eq_none.mpr (fun d hd => by simp [hdeps d hd])
    unfold execute_node
    simp only [hfind, hfd]
    cases hga : get_tool_adapter registry n.tool.type with
    | error e => exact ⟨_, _, rfl⟩
    | ok a =>
      rcases hcall : a (buildParams n results) ctx with ⟨outcome, ctx1⟩
      cases outcome <;> simp [hcall]

/-- A two-node workflow whose second node consumes the first one. -/
def wfDep : Workflow :=
  { id := "wf_dep", name := "dep",
    nodes :=
      [ { id := "X", tool := { type := "tool.x" } },
        { id := "Y", tool := { type := "tool.y" }, depends_on := ["X"] } ] }

/-- Witness for `dependency_results_passed_to_tool`: node `Y` depends on
the failed node `X`, whose recorded result is error-tagged; `Y` receives
it under the key `dep_X` and `execute_node` does not raise. -/
theorem dependency_results_passed_to_tool_witness :
    buildParams { id := "Y", tool := { type := "tool.y" }, depends_on := ["X"] }
        [("X", [("error", Val.str "boom"), ("node_id", Val.str "X")])]
      = [("dep_X", Val.obj [("error", Val.str "boom"), ("node_id", Val.str "X")])] ∧
    ∃ r ctx1, execute_node [] "Y" wfDep ctx0
        [("X", [("error", Val.str "boom"), ("node_id", Val.str "X")])]
      = (Except.ok r, ctx1) := by
  have h := dependency_results_passed_to_tool [] wfDep ctx0
    { id := "Y", tool := { type := "tool.y" }, depends_on := ["X"] }
    [("X", [("error", Val.str "boom"), ("node_id", Val.str "X")])]
    rfl (by decide) (by decide) (by decide)
  exact ⟨by simpa using h.1, h.2⟩

/-- **C8** (confirmed).  `validate_dag` is false exactly when some
`depends_on` entry names no node of the workflow, and a false
`validate_dag` makes the run terminate with the single
`workflow_error "Invalid workflow DAG"` event — zero `node_start`
events, before any node executes. -/
theorem dangling_reference_rejected (registry : Dict ToolAdapter)
    (setIter : List String) (w : Workflow) (ctx : WorkflowContext) :
    (w.validate_dag = false ↔
      ∃ n ∈ w.nodes, ∃ d ∈ n.depends_on, ∀ m ∈ w.nodes, m.id ≠ d) ∧
    (w.validate_dag = false →
      (run_workflow registry setIter w ctx).1 = [Event.workflow_error "Invalid workflow DAG"] ∧
      (run_workflow registry setIter w ctx).1.filter Event.isNodeStart = []) := by
  constructor
  · rw [Bool.eq_false_iff]
    simp only [ne_eq, Workflow.validate_dag, List.all_eq_true, List.any_eq_true,
      decide_eq_true_eq, not_forall]
    push_neg
    simp
  · intro hval
    refine ⟨by simp [run_workflow, hval], ?_⟩
    simp [run_workflow, hval, Event.isNodeStart]

/-- A workflow with a dangling dependency reference. -/
def wfDang : Workflow :=
  { id := "wf_dang", name := "dang",
    nodes := [ { id := "A", tool := { type := "tool.a" }, depends_on := ["ghost"] } ] }

/-- Witness for `dangling_reference_rejected` on `wfDang`. -/
theorem dangling_reference_rejected_witness :
    wfDang.validate_dag = false ∧
    (run_workflow [] ["A"] wfDang ctx0).1 = [Event.workflow_error "Invalid workflow DAG"] :=
  ⟨rfl, ((dangling_reference_rejected [] ["A"] wfDang ctx0).2 rfl).1⟩

/-! ## Claim C9: the execution log -/

/-- All adapters of a registry only append to the execution log (true of
every adapter in `app/registry.py`: they record outcomes with
`ctx.execution_log.append(...)` and never drop or reorder entries). -/
def AppendOnlyRegistry (registry : Dict ToolAdapter) : Prop :=
  ∀ p ∈ registry, ∀ params ctx, ∃ tail,
    ((p.2 params ctx).2).execution_log = ctx.execution_log ++ tail

lemma execute_node_log (registry : Dict ToolAdapter) (w : Workflow)
    (node_id : String) (ctx : WorkflowContext) (results : Dict NodeResult)
    (hreg : AppendOnlyRegistry registry) :
    (∀ r ctx1, execute_node registry node_id w ctx results = (Except.ok r, ctx1) →
      ∃ t, ctx1.execution_log = ctx.execution_log ++ t ∧ 1 ≤ t.length) ∧
    (∀ e ctx1, execute_node registry node_id w ctx results = (Except.error e, ctx1) →
      ctx1 = ctx) := by
  constructor
  · intro r ctx1 h
    unfold execute_node at h
    cases hfind : w.nodes.find? (fun n => n.id = node_id) with
    | none => simp only [hfind] at h; simp at h
    | some node =>
      simp only [hfind] at h
      cases hdep : node.depends_on.find? (fun dep_id => !dictHas results dep_id) with
      | some dep_id => simp only [hdep] at h; simp at h
      | none =>
        simp only [hdep] at h
        cases hga : get_tool_adapter registry node.tool.type with
        | error e =>
          simp only [hga, Prod.mk.injEq] at h
          exact ⟨[errLog node_id node.tool.type e], by rw [← h.2], by simp⟩
        | ok a =>
          have hmem : ∃ p ∈ registry, p.2 = a := by
            unfold get_tool_adapter at hga
            cases hf2 : registry.find? (fun p => p.1 = node.tool.type) with
            | none => rw [hf2] at hga; exact absurd hga (by simp)
            | some p =>
              rw [hf2] at hga
              simp only [Except.ok.injEq] at hga
              exact ⟨p, List.mem_of_find?_eq_some hf2, hga⟩
          obtain ⟨p, hp, hpa⟩ := hmem
          obtain ⟨atail, hatail⟩ := hreg p hp (buildParams node results) ctx
          rw [hpa] at hatail
          rcases hcall : a (buildParams node results) ctx with ⟨outcome, ctxm⟩
          rw [hcall] at hatail
          have hatail2 : ctxm.execution_log = ctx.execution_log ++ atail := hatail
          simp only [hga, hcall] at h
          cases outcome with
          | ok result =>
            simp only [Prod.mk.injEq] at h
            refine ⟨atail ++ [okLog node_id node.tool.type], ?_, by simp⟩
            rw [← h.2]
            simp [hatail2]
          | error e =>
            simp only [Prod.mk.injEq] at h
            refine ⟨atail ++ [errLog node_id node.tool.type e], ?_, by simp⟩
            rw [← h.2]
            simp [hatail2]
  · intro e ctx1 h
    unfold execute_node at h
    cases hfind : w.nodes.find? (fun n => n.id = node_id) with
    | none =>
      simp only [hfind, Prod.mk.injEq] at h
      exact h.2.symm
    | some node =>
      simp only [hfind] at h
      cases hdep : node.depends_on.find? (fun dep_id => !dictHas results dep_id) with
      | some dep_id =>
        simp only [hdep, Prod.mk.injEq] at h
        exact h.2.symm
      | none =>
        simp only [hdep] at h
        cases hga : get_tool_adapter registry node.tool.type with
        | error e3 => simp only [hga] at h; simp at h
        | ok a =>
          rcases hcall : a (buildParams node results) ctx with ⟨outcome, ctxm⟩
          simp only [hga, hcall] at h
          cases outcome <;> simp at h

lemma run_nodes_log (registry : Dict ToolAdapter) (w : Workflow)
    (hreg : AppendOnlyRegistry registry) :
    ∀ (order : List String) (ctx : WorkflowContext) (results : Dict NodeResult),
    ∃ tail, ((run_nodes registry w order ctx results).2.2).execution_log
        = ctx.execution_log ++ tail ∧
      ((run_nodes registry w order ctx results).1.filter Event.isNodeComplete).length
        ≤ tail.length := by
  intro order
  induction order with
  | nil => intro ctx results; exact ⟨[], by simp [run_nodes], by simp [run_nodes]⟩
  | cons node_id rest ih =>
    intro ctx results
    rcases hex : execute_node registry node_id w ctx results with ⟨outcome, ctx1⟩
    cases outcome with
    | ok r =>
      obtain ⟨t, ht, ht1⟩ := (execute_node_log registry w node_id ctx results hreg).1 r ctx1 hex
      obtain ⟨tl, htl, hcnt⟩ := ih ctx1 (dictSet results node_id r)
      refine ⟨t ++ tl, ?_, ?_⟩
      · simp only [run_nodes, hex]
        rw [htl, ht, List.append_assoc]
      · simp only [run_nodes, hex]
        simp [List.filter_cons, Event.isNodeComplete, Event.isNodeStart]
        omega
    | error e =>
      have hctx : ctx1 = ctx :=
        (execute_node_log registry w node_id ctx results hreg).2 e ctx1 hex
      subst hctx
      obtain ⟨tl, htl, hcnt⟩ := ih ctx1
        (dictSet results node_id [("error", Val.str e)])
      refine ⟨tl, ?_, ?_⟩
      · simp only [run_nodes, hex]
        exact htl
      · simp only [run_nodes, hex]
        simpa [List.filter_cons, Event.isNodeComplete, Event.isNodeStart,
          Event.isNodeError] using hcnt

/-- **C9** (confirmed).  Provided every registered tool adapter only
appends to the log (as all concrete adapters do), a full run only ever
appends to `execution_log`: the final log is the initial log plus a
tail, and that tail has at least one entry per executed node (per
`node_complete` event — every node that actually ran its tool). -/
theorem execution_log_append_only (registry : Dict ToolAdapter)
    (setIter : List String) (w : Workflow) (ctx : WorkflowContext)
    (hreg : AppendOnlyRegistry registry) :
    ∃ tail, ((run_workflow registry setIter w ctx).2).execution_log
        = ctx.execution_log ++ tail ∧
      ((run_workflow registry setIter w ctx).1.filter Event.isNodeComplete).length
        ≤ tail.length := by
  unfold run_workflow
  by_cases hval : w.validate_dag = false
  · exact ⟨[], by simp [hval], by simp [hval, Event.isNodeComplete]⟩
  · cases hsort : topological_sort setIter w with
    | error e =>
      exact ⟨[], by simp [hval, hsort], by simp [hval, hsort, Event.isNodeComplete]⟩
    | ok order =>
      obtain ⟨tail, ht, hc⟩ := run_nodes_log registry w hreg order ctx []
      refine ⟨tail, by simp only [hval, if_false, hsort]; exact ht, ?_⟩
      simp only [hval, if_false, hsort]
      simpa [List.filter_cons, List.filter_append, Event.isNodeComplete] using hc

/-- A trivially succeeding tool adapter for witnesses. -/
def echoAdapter : ToolAdapter := fun _ ctx => (Except.ok [("ok", Val.bool true)], ctx)

/-- A one-node workflow wired to `echoAdapter`. -/
def wfEcho : Workflow :=
  { id := "wf_echo", name := "echo", nodes := [ { id := "A", tool := { type := "echo" } } ] }

/-- Witness for `execution_log_append_only` with the concrete
append-only registry `[("echo", echoAdapter)]`. -/
theorem execution_log_append_only_witness :
    AppendOnlyRegistry [("echo", echoAdapter)] ∧
    ∃ tail, ((run_workflow [("echo", echoAdapter)] ["A"] wfEcho ctx0).2).execution_log
        = ctx0.execution_log ++ tail ∧
      ((run_workflow [("echo", echoAdapter)] ["A"] wfEcho ctx0).1.filter
          Event.isNodeComplete).length ≤ tail.length := by
  have hreg : AppendOnlyRegistry [("echo", echoAdapter)] := by
    intro p hp params ctx
    rw [List.mem_singleton] at hp
    subst hp
    exact ⟨[], by simp [echoAdapter]⟩
  exact ⟨hreg, execution_log_append_only [("echo", echoAdapter)] ["A"] wfEcho ctx0 hreg⟩

/-! ## Claim C5: secret injection -/

/-- **C5** counterexample: with a configured global OpenAI key and
different account ids `"a1"` and `"a2"`, both contexts receive the
secret key `OPENAI_API_KEY` — the two secret maps share a key, so they
are not disjoint as the claim states. -/
theorem shared_openai_key_counterexample :
    ("a1" : String) ≠ "a2" ∧
    dictHas (inject_secrets { openai_key := some "sk-test" } [] (fun _ => none)
        "r1" wfOne (some "a1")).secrets "OPENAI_API_KEY" = true ∧
    dictHas (inject_secrets { openai_key := some "sk-test" } [] (fun _ => none)
        "r2" wfOne (some "a2")).secrets "OPENAI_API_KEY" = true :=
  ⟨by decide, rfl, rfl⟩

lemma dictHas_mem_keys {α : Type} (d : Dict α) (k : String) :
    dictHas d k = true ↔ k ∈ d.map Prod.fst := by
  simp [dictHas, List.mem_map]

lemma keys_dictSet {α : Type} (d : Dict α) (key : String) (v : α) :
    (dictSet d key v).map Prod.fst = d.map Prod.fst ∨
    (dictSet d key v).map Prod.fst = d.map Prod.fst ++ [key] := by
  unfold dictSet
  split
  · left
    rw [List.map_map]
    refine List.map_congr_left (fun p _ => ?_)
    by_cases h : p.1 = key <;> simp [h]
  · right
    simp

lemma dictSet_keys_sub {α : Type} (d : Dict α) (key k : String) (v : α)
    (h : dictHas (dictSet d key v) k = true) :
    dictHas d k = true ∨ k = key := by
  rw [dictHas_mem_keys] at h
  rcases keys_dictSet d key v with he | he <;> rw [he] at h
  · exact Or.inl ((dictHas_mem_keys d k).mpr h)
  · rcases List.mem_append.mp h with h1 | h1
    · exact Or.inl ((dictHas_mem_keys d k).mpr h1)
    · exact Or.inr (by simpa using h1)

lemma fold_decrypt_keys (decrypt : String → Option String) :
    ∀ (l : Dict String) (init : Dict String) (k : String),
    dictHas (l.foldl (fun s kv => match decrypt kv.2 with
      | some v => dictSet s kv.1 v
      | none => s) init) k = true →
    dictHas init k = true ∨ k ∈ l.map Prod.fst := by
  intro l
  induction l with
  | nil => intro init k h; exact Or.inl h
  | cons kv rest ih =>
    intro init k h
    rw [List.foldl_cons] at h
    rcases hdec : decrypt kv.2 with _ | v <;> rw [hdec] at h
    · rcases ih init k h with h1 | h2
      · exact Or.inl h1
      · exact Or.inr (by simp [h2])
    · rcases ih (dictSet init kv.1 v) k h with h1 | h2
      · rcases dictSet_keys_sub init kv.1 k v h1 with h3 | h3
        · exact Or.inl h3
        · exact Or.inr (by simp [h3])
      · exact Or.inr (by simp [h2])

/-- Every key injected for account `a` (with no global key configured)
comes from `a`'s own entry of the secret store. -/
lemma inject_secrets_keys_sub (stg : Settings) (store : SecretStore)
    (decrypt : String → Option String) (rid : String) (w : Workflow) (a : String)
    (hkey : optTruthy stg.openai_key = false) (k : String)
    (hk : dictHas (inject_secrets stg store decrypt rid w (some a)).secrets k = true) :
    k ∈ accountKeys store a := by
  unfold inject_secrets at hk
  by_cases ha : optTruthy (some a) = false
  · simp [ha, dictHas] at hk
  · rw [if_neg ha] at hk
    simp only [hkey, Bool.false_eq_true, if_false] at hk
    cases hfind : store.find? (fun p => p.1 = (some a : Option String).getD "") with
    | none => rw [hfind] at hk; simp [dictHas] at hk
    | some entry =>
      rw [hfind] at hk
      rcases fold_decrypt_keys decrypt entry.2 [] k hk with h1 | h2
      · simp [dictHas] at h1
      · unfold accountKeys
        have : (some a : Option String).getD "" = a := rfl
        rw [this] at hfind
        rw [hfind]
        exact h2

/-- **C5** as amended: the account-specific secrets injected into a
context come only from that account's own store entry; hence when no
global provider key is configured and two accounts have no stored key
name in common, their secret maps are disjoint — and a context built
with no account id has an empty secret map.  (As stated the claim is
false: the globally configured `OPENAI_API_KEY` is injected for every
account, see `shared_openai_key_counterexample`.) -/
theorem account_secrets_isolated (stg : Settings) (store : SecretStore)
    (decrypt : String → Option String) (rid1 rid2 : String) (w1 w2 : Workflow)
    (a b : String)
    (hkey : optTruthy stg.openai_key = false)
    (hdisj : ∀ k, k ∈ accountKeys store a → k ∈ accountKeys store b → False) :
    (∀ k, dictHas (inject_secrets stg store decrypt rid1 w1 (some a)).secrets k = true →
      dictHas (inject_secrets stg store decrypt rid2 w2 (some b)).secrets k = true →
      False) ∧
    (inject_secrets stg store decrypt rid1 w1 none).secrets = [] := by
  refine ⟨?_, rfl⟩
  intro k h1 h2
  exact hdisj k
    (inject_secrets_keys_sub stg store decrypt rid1 w1 a hkey k h1)
    (inject_secrets_keys_sub stg store decrypt rid2 w2 b hkey k h2)

/-- Witness for `account_secrets_isolated`: no global key, two accounts
with distinct stored key names. -/
theorem account_secrets_isolated_witness :
    (∀ k, k ∈ accountKeys [("a1", [("K1", "e1")]), ("a2", [("K2", "e2")])] "a1" →
          k ∈ accountKeys [("a1", [("K1", "e1")]), ("a2", [("K2", "e2")])] "a2" →
          False) ∧
    (∀ k, dictHas (inject_secrets { openai_key := none }
          [("a1", [("K1", "e1")]), ("a2", [("K2", "e2")])] (fun v => some v)
          "r1" wfOne (some "a1")).secrets k = true →
      dictHas (inject_secrets { openai_key := none }
          [("a1", [("K1", "e1")]), ("a2", [("K2", "e2")])] (fun v => some v)
          "r2" wfOne (some "a2")).secrets k = true →
      False) ∧
    (inject_secrets { openai_key := none }
        [("a1", [("K1", "e1")]), ("a2", [("K2", "e2")])] (fun v => some v)
        "r1" wfOne none).secrets = [] := by
  have hdisj : ∀ k, k ∈ accountKeys [("a1", [("K1", "e1")]), ("a2", [("K2", "e2")])] "a1" →
      k ∈ accountKeys [("a1", [("K1", "e1")]), ("a2", [("K2", "e2")])] "a2" → False := by
    intro k h1 h2
    have e1 : accountKeys [("a1", [("K1", "e1")]), ("a2", [("K2", "e2")])] "a1" = ["K1"] := rfl
    have e2 : accountKeys [("a1", [("K1", "e1")]), ("a2", [("K2", "e2")])] "a2" = ["K2"] := rfl
    rw [e1] at h1
    rw [e2] at h2
    simp at h1 h2
    subst h1
    exact absurd h2 (by decide)
  have h := account_secrets_isolated { openai_key := none }
    [("a1", [("K1", "e1")]), ("a2", [("K2", "e2")])] (fun v => some v)
    "r1" "r2" wfOne wfOne "a1" "a2" rfl hdisj
  exact ⟨hdisj, h.1, h.2⟩

/-! ## Claim C10: the summary generator -/

lemma dictGet_eq_none {α : Type} (d : Dict α) (k : String)
    (h : dictHas d k = false) : dictGet d k = none := by
  unfold dictGet
  rw [List.find?_eq_none.mpr]
  · rfl
  · intro p hp hc
    have hmem : dictHas d k = true := List.any_eq_true.mpr ⟨p, hp, hc⟩
    rw [hmem] at h
    exact absurd h (by simp)

/-- **C10** (confirmed).  A node whose id has no entry in the results
map is rendered as a `✅ <id>: Success` line by the summary generator,
yet contributes nothing to the successful count `X` of the aggregate
`X/Y` line: when every recorded result is error-tagged the count is `0`
while the missing node still reads as success, so the per-node lines
and the aggregate disagree. -/
theorem summary_counts_only_recorded_results (w : Workflow) (n : WorkflowNode)
    (node_results : Dict NodeResult)
    (hn : n ∈ w.nodes)
    (habs : dictHas node_results n.id = false)
    (hall : ∀ p ∈ node_results, dictHas p.2 "error" = true) :
    ("✅ " ++ n.id ++ ": Success") ∈ summaryParts w node_results ∧
    successful_count node_results = 0 := by
  constructor
  · unfold summaryParts
    apply List.mem_cons_of_mem
    apply List.mem_append_left
    apply List.mem_map.mpr
    refine ⟨n, hn, ?_⟩
    have hget : dictGetD node_results n.id [] = [] := by
      unfold dictGetD
      rw [dictGet_eq_none node_results n.id habs]
      rfl
    rw [hget]
    simp [dictHas]
  · unfold successful_count
    rw [List.length_eq_zero, List.filter_eq_nil_iff]
    intro p hp
    simp [hall p hp]

/-- Witness for `summary_counts_only_recorded_results`: `wfOne`'s only
node is absent from a results map whose single entry is error-tagged,
so the summary shows `✅ A: Success` next to a `0/1` aggregate. -/
theorem summary_counts_only_recorded_results_witness :
    ("✅ A: Success") ∈ summaryParts wfOne [("B", [("error", Val.str "x")])] ∧
    successful_count [("B", [("error", Val.str "x")])] = 0 := by
  have h := summary_counts_only_recorded_results wfOne
    { id := "A", tool := { type := "missing" } }
    [("B", [("error", Val.str "x")])]
    (by simp [wfOne]) rfl (by decide)
  exact ⟨by simpa using h.1, h.2⟩

end Frog
